import Mathlib

set_option maxRecDepth 8000

/-!
Shallow embedding of resume_parser.py.

Python strings are modelled as lists of character code points (List Nat).
The helpers pys, pyLower, pyStrip, pyBegins, pyContains model string
literals, str.lower, str.strip, str.startswith and the Python in
(substring / membership) operator for the ASCII text the parser works on.
An AnnotatedDocument (spaCy Doc) is modelled by its contract surface:
sentences, entities, tokens and noun chunks.
-/

abbrev PyStr := List Nat

def pys (s : String) : PyStr := s.data.map Char.toNat

def isWsp (n : Nat) : Bool := n == 32 || (9 ≤ n && n ≤ 13)

def pyStrip (s : PyStr) : PyStr :=
  ((s.dropWhile isWsp).reverse.dropWhile isWsp).reverse

def pyLowerC (n : Nat) : Nat := if 65 ≤ n ∧ n ≤ 90 then n + 32 else n

def pyUpperC (n : Nat) : Nat := if 97 ≤ n ∧ n ≤ 122 then n - 32 else n

def pyLower (s : PyStr) : PyStr := s.map pyLowerC

def pyBegins : PyStr → PyStr → Bool
  | [], _ => true
  | _ :: _, [] => false
  | p :: ps, c :: cs => p == c && pyBegins ps cs

def pyContains (pat : PyStr) : PyStr → Bool
  | [] => pyBegins pat []
  | c :: rest => pyBegins pat (c :: rest) || pyContains pat rest

def pySplitNl : PyStr → List PyStr
  | [] => [[]]
  | c :: rest =>
    match pySplitNl rest with
    | [] => [[c]]
    | h :: t => if c == 10 then [] :: h :: t else (c :: h) :: t

/-- Case-insensitive containment check used by the section scanners:
models the Python test kw.lower() in line.lower(). -/
def kwIn (kw l : PyStr) : Bool := pyContains (pyLower kw) (pyLower l)

/-! ### extract_section (resume_parser.py lines 261-284) -/

def sectionLoop (header : PyStr) (stops : List PyStr) : List PyStr → Bool → List PyStr
  | [], _ => []
  | line :: rest, inSec =>
    if kwIn header (pyStrip line) then sectionLoop header stops rest true
    else if inSec && stops.any (fun sh => kwIn sh (pyStrip line)) then []
    else if inSec then pyStrip line :: sectionLoop header stops rest inSec
    else sectionLoop header stops rest inSec

def extract_section (text header : PyStr) (stops : List PyStr) : List PyStr :=
  (sectionLoop header stops (pySplitNl text) false).filter (fun l => !l.isEmpty)

theorem sectionLoop_mem (header : PyStr) (stops : List PyStr) :
    ∀ (lines : List PyStr) (b : Bool) (l : PyStr), l ∈ sectionLoop header stops lines b →
      kwIn header l = false ∧ stops.any (fun sh => kwIn sh l) = false := by
  intro lines
  induction lines with
  | nil => intro b l h; simp [sectionLoop] at h
  | cons line rest ih =>
    intro b l h
    simp only [sectionLoop] at h
    split_ifs at h with h1 h2 h3
    · exact ih true l h
    · exact absurd h (List.not_mem_nil l)
    · rcases List.mem_cons.mp h with rfl | hm
      · refine ⟨by simpa using h1, ?_⟩
        rw [h3] at h2
        simpa using h2
      · exact ih b l hm
    · exact ih b l h

theorem sectionLoop_noheader (header : PyStr) (stops : List PyStr) :
    ∀ (lines : List PyStr), (∀ l ∈ lines, kwIn header (pyStrip l) = false) →
      sectionLoop header stops lines false = [] := by
  intro lines
  induction lines with
  | nil => intro _; simp [sectionLoop]
  | cons line rest ih =>
    intro hall
    have h1 : kwIn header (pyStrip line) = false := hall line (List.mem_cons_self line rest)
    simp [sectionLoop, h1]
    exact ih (fun l hl => hall l (List.mem_cons_of_mem line hl))

/-- C5: extract_section never emits a line whose lowercase form contains the
header keyword or any stop keyword (in particular it emits neither the header
line that opened the section nor the stop line that terminated the scan), and
when no line contains the header keyword the result is the empty sequence. -/
theorem extract_section_boundary (text header : PyStr) (stops : List PyStr) :
    (∀ l ∈ extract_section text header stops,
        kwIn header l = false ∧ ∀ sh ∈ stops, kwIn sh l = false)
  ∧ ((∀ l ∈ pySplitNl text, kwIn header (pyStrip l) = false) →
        extract_section text header stops = []) := by
  constructor
  · intro l hl
    have hm : l ∈ sectionLoop header stops (pySplitNl text) false :=
      (List.mem_filter.mp hl).1
    have h := sectionLoop_mem header stops (pySplitNl text) false l hm
    refine ⟨h.1, ?_⟩
    intro sh hsh
    cases hx : kwIn sh l with
    | false => rfl
    | true =>
      have : stops.any (fun x => kwIn x l) = true := List.any_eq_true.mpr ⟨sh, hsh, hx⟩
      rw [h.2] at this
      exact absurd this (by simp)
  · intro hall
    unfold extract_section
    rw [sectionLoop_noheader header stops (pySplitNl text) hall]
    rfl

/-- C5 witness: a text with no occurrence of the header keyword yields the
empty sequence. -/
theorem extract_section_boundary_witness :
    extract_section (pys "no header here") (pys "projects") [pys "education"] = [] :=
  (extract_section_boundary (pys "no header here") (pys "projects") [pys "education"]).2
    (by decide)

/-- C9: in extract_section the header check precedes the stop check: any line
containing the header keyword is discarded and the scan continues (even from
the inside state and even when the line also contains a stop keyword), and no
emitted line contains the header keyword. -/
theorem extract_section_header_precedence (header : PyStr) (stops : List PyStr) :
    (∀ (line : PyStr) (rest : List PyStr) (b : Bool),
        kwIn header (pyStrip line) = true →
        sectionLoop header stops (line :: rest) b = sectionLoop header stops rest true)
  ∧ (∀ text : PyStr, ∀ l ∈ extract_section text header stops, kwIn header l = false) := by
  constructor
  · intro line rest b h
    simp [sectionLoop, h]
  · intro text l hl
    exact (sectionLoop_mem header stops (pySplitNl text) false l
      (List.mem_filter.mp hl).1).1

/-- C9 witness: inside the section, a line containing both the header keyword
and a stop keyword is discarded and does not terminate the scan. -/
theorem extract_section_header_precedence_witness :
    sectionLoop (pys "skills") [pys "skills:"] [pys "Technical Skills:"] true
      = sectionLoop (pys "skills") [pys "skills:"] [] true :=
  (extract_section_header_precedence (pys "skills") [pys "skills:"]).1
    (pys "Technical Skills:") [] true (by decide)

/-! ### The annotated document view (spaCy Doc contract) -/

structure Sentence where
  text : PyStr
  start : Nat
  deriving DecidableEq

structure Ent where
  text : PyStr
  label_ : PyStr
  start : Nat
  endPos : Nat
  deriving DecidableEq

structure Token where
  text : PyStr
  is_stop : Bool
  deriving DecidableEq

structure Doc where
  sents : List Sentence
  ents : List Ent
  tokens : List Token
  noun_chunks : List PyStr
  deriving DecidableEq

/-! ### extract_summary (resume_parser.py lines 64-99) -/

def summary_keywords : List PyStr :=
  [pys "summary", pys "objective", pys "profile", pys "about me"]

def summaryTrigger (t : PyStr) : Bool :=
  summary_keywords.any (fun k => pyContains k (pyLower (pyStrip t)))

def pyJoinSp : List PyStr → PyStr
  | [] => []
  | [x] => x
  | x :: y :: rest => x ++ 32 :: pyJoinSp (y :: rest)

def summaryLoop : List Sentence → Bool → List PyStr
  | [], _ => []
  | s :: rest, inSum =>
    if summaryTrigger s.text then pyStrip s.text :: summaryLoop rest true
    else if inSum then
      if pyContains (pys "experience") (pyLower (pyStrip s.text)) then []
      else pyStrip s.text :: summaryLoop rest inSum
    else summaryLoop rest false

def extract_summary (doc : Doc) : PyStr :=
  pyStrip (pyJoinSp (summaryLoop doc.sents false))

def sumDoc : Doc :=
  { sents := [⟨pys "Profile: driven engineer.", 0⟩, ⟨pys "Loves Python.", 1⟩,
              ⟨pys "Experience: five years in industry.", 2⟩],
    ents := [], tokens := [], noun_chunks := [] }

theorem summaryLoop_notrigger :
    ∀ (sents : List Sentence), (∀ s ∈ sents, summaryTrigger s.text = false) →
      summaryLoop sents false = [] := by
  intro sents
  induction sents with
  | nil => intro _; rfl
  | cons s rest ih =>
    intro hall
    have h1 : summaryTrigger s.text = false := hall s (List.mem_cons_self s rest)
    simp [summaryLoop, h1]
    exact ih (fun x hx => hall x (List.mem_cons_of_mem s hx))

/-- C6: on the three sentences of the scenario the summary extractor returns
exactly the first two sentences joined by a space (the terminator sentence
containing "experience" is excluded), and on any document none of whose
sentences contains a trigger keyword it returns the empty string. -/
theorem extract_summary_spec :
    extract_summary sumDoc = pys "Profile: driven engineer. Loves Python."
  ∧ (∀ doc : Doc, (∀ s ∈ doc.sents, summaryTrigger s.text = false) →
      extract_summary doc = []) := by
  constructor
  · decide
  · intro doc hall
    unfold extract_summary
    rw [summaryLoop_notrigger doc.sents hall]
    rfl

/-- C6 witness: a document with a single trigger-free sentence yields the
empty summary. -/
theorem extract_summary_spec_witness :
    extract_summary { sents := [⟨pys "Worked hard.", 0⟩], ents := [],
                      tokens := [], noun_chunks := [] } = [] :=
  extract_summary_spec.2
    { sents := [⟨pys "Worked hard.", 0⟩], ents := [], tokens := [], noun_chunks := [] }
    (by decide)

/-! ### extract_skills (resume_parser.py lines 102-112) -/

def pyCapitalize : PyStr → PyStr
  | [] => []
  | c :: cs => pyUpperC c :: pyLower cs

def skillTokens (doc : Doc) : List PyStr :=
  (doc.tokens.filter (fun t => !t.is_stop)).map (fun t => pyLower t.text)

def skillChunks (doc : Doc) : List PyStr :=
  doc.noun_chunks.map pyLower

def skillMatched (doc : Doc) (sk : PyStr) : Bool :=
  decide (pyLower sk ∈ skillTokens doc ∨ pyLower sk ∈ skillChunks doc)

def extract_skills (doc : Doc) (skill_list : List PyStr) : List PyStr :=
  ((skill_list.filter (skillMatched doc)).map pyCapitalize).dedup

theorem pyLowerC_pyLowerC (n : Nat) : pyLowerC (pyLowerC n) = pyLowerC n := by
  unfold pyLowerC
  split_ifs <;> omega

theorem pyLowerC_pyUpperC_inj (a b : Nat)
    (h : pyLowerC (pyUpperC a) = pyLowerC (pyUpperC b)) : pyUpperC a = pyUpperC b := by
  simp only [pyLowerC, pyUpperC] at h ⊢
  split_ifs at h ⊢ <;> omega

theorem pyLower_pyLower (s : PyStr) : pyLower (pyLower s) = pyLower s := by
  induction s with
  | nil => rfl
  | cons c cs ih => simp [pyLower, pyLowerC_pyLowerC]

theorem pyLower_pyCapitalize_inj (s t : PyStr)
    (h : pyLower (pyCapitalize s) = pyLower (pyCapitalize t)) :
    pyCapitalize s = pyCapitalize t := by
  cases s with
  | nil =>
    cases t with
    | nil => rfl
    | cons d ds => simp [pyCapitalize, pyLower] at h
  | cons c cs =>
    cases t with
    | nil => simp [pyCapitalize, pyLower] at h
    | cons d ds =>
      simp only [pyCapitalize, pyLower, List.map_cons] at h ⊢
      rcases List.cons.injEq _ _ _ _ ▸ h with ⟨h1, h2⟩
      have hu : pyUpperC c = pyUpperC d := pyLowerC_pyUpperC_inj c d h1
      have ht : cs.map pyLowerC = ds.map pyLowerC := by
        have := h2
        rw [show (cs.map pyLowerC).map pyLowerC = cs.map pyLowerC from pyLower_pyLower cs,
            show (ds.map pyLowerC).map pyLowerC = ds.map pyLowerC from pyLower_pyLower ds]
          at this
        exact this
      rw [hu, ht]

/-- C7: the skills result never contains two entries that agree up to case:
rendered skills are pairwise distinct even after lowercasing, so a vocabulary
term present twice with different casing yields at most one rendering. -/
theorem extract_skills_ci_nodup (doc : Doc) (vocab : List PyStr) :
    (extract_skills doc vocab).Pairwise (fun a b => pyLower a ≠ pyLower b) := by
  unfold extract_skills
  refine List.Pairwise.imp_of_mem ?_ (List.nodup_dedup _)
  intro a b ha hb hne heq
  rw [List.mem_dedup] at ha hb
  obtain ⟨s, _, rfl⟩ := List.mem_map.mp ha
  obtain ⟨t, _, rfl⟩ := List.mem_map.mp hb
  exact hne (pyLower_pyCapitalize_inj s t heq)

/-- C10: every rendered skill is the matched vocabulary term with its first
character uppercased and every later character lowercased (so internal
capitalization of the vocabulary term is not preserved). -/
theorem extract_skills_rendered (doc : Doc) (vocab : List PyStr) :
    ∀ s ∈ extract_skills doc vocab,
      ∃ t, t ∈ vocab ∧ skillMatched doc t = true ∧ s = pyCapitalize t := by
  intro s hs
  unfold extract_skills at hs
  rw [List.mem_dedup] at hs
  obtain ⟨t, ht, rfl⟩ := List.mem_map.mp hs
  exact ⟨t, (List.mem_filter.mp ht).1, (List.mem_filter.mp ht).2, rfl⟩

def c10doc : Doc :=
  { sents := [], ents := [], tokens := [⟨pys "javascript", false⟩], noun_chunks := [] }

/-- C10 witness: with vocabulary term JavaScript matched by token javascript,
the rendered skill Javascript comes from that term via pyCapitalize, losing
the internal capital S. -/
theorem extract_skills_rendered_witness :
    ∃ t, t ∈ [pys "JavaScript"] ∧ skillMatched c10doc t = true
      ∧ pys "Javascript" = pyCapitalize t :=
  extract_skills_rendered c10doc [pys "JavaScript"] (pys "Javascript") (by decide)

/-! ### extract_work_experience (resume_parser.py lines 120-141) -/

structure WEJob where
  company : Option PyStr := none
  dates : Option PyStr := none
  job_title : Option PyStr := none
  deriving DecidableEq

/-- Python truthiness of current_job.get(key): present and non-empty. -/
def truthy : Option PyStr → Bool
  | none => false
  | some s => !s.isEmpty

/-- Lookahead for the job title: the first sentence starting strictly after
the triggering entity's end offset, trimmed. -/
def findTitle (sents : List Sentence) (entEnd : Nat) : Option PyStr :=
  (sents.find? (fun s => entEnd < s.start)).map (fun s => pyStrip s.text)

/-- The two field-filling branches of the entity loop (ORG fills company,
DATE fills dates, each only when not already truthy). -/
def weFill (cur : WEJob) (ent : Ent) : WEJob :=
  if ent.label_ = pys "ORG" ∧ truthy cur.company = false then
    { cur with company := some ent.text }
  else if ent.label_ = pys "DATE" ∧ truthy cur.dates = false then
    { cur with dates := some ent.text }
  else cur

def weStep (sents : List Sentence) (st : WEJob × List WEJob) (ent : Ent) :
    WEJob × List WEJob :=
  let cur2 := weFill st.1 ent
  if cur2.company.isSome ∧ cur2.dates.isSome then
    (⟨none, none, none⟩, st.2 ++ [{ cur2 with job_title := findTitle sents ent.endPos }])
  else (cur2, st.2)

def extract_work_experience (doc : Doc) : List WEJob :=
  (doc.ents.foldl (weStep doc.sents) (⟨none, none, none⟩, [])).2

/-- Completeness of one emitted work-experience record: company and dates are
non-empty, and job_title is non-empty unless the lookahead edge case occurred
(no sentence starts strictly after the triggering entity's end). -/
def GoodWE (allEnts : List Ent) (sents : List Sentence) (j : WEJob) : Prop :=
  truthy j.company = true ∧ truthy j.dates = true ∧
    (truthy j.job_title = true ∨
      (j.job_title = none ∧ ∃ e ∈ allEnts, ∀ s ∈ sents, s.start ≤ e.endPos))

def optNE (o : Option PyStr) : Prop := ∀ t, o = some t → t ≠ []

theorem truthy_of_isSome_optNE (o : Option PyStr) (h1 : o.isSome = true) (h2 : optNE o) :
    truthy o = true := by
  cases o with
  | none => simp at h1
  | some s =>
    have : s ≠ [] := h2 s rfl
    simp [truthy, this]

theorem weFill_company (cur : WEJob) (ent : Ent) (hc : optNE cur.company)
    (ht : ent.text ≠ []) : optNE (weFill cur ent).company := by
  unfold weFill
  split_ifs with hA hB
  · intro t hEq
    simp only [Option.some.injEq] at hEq
    exact hEq ▸ ht
  · exact hc
  · exact hc

theorem weFill_dates (cur : WEJob) (ent : Ent) (hd : optNE cur.dates)
    (ht : ent.text ≠ []) : optNE (weFill cur ent).dates := by
  unfold weFill
  split_ifs with hA hB
  · exact hd
  · intro t hEq
    simp only [Option.some.injEq] at hEq
    exact hEq ▸ ht
  · exact hd

theorem findTitle_cases (sents : List Sentence) (entEnd : Nat)
    (hS : ∀ s ∈ sents, pyStrip s.text ≠ []) :
    (∃ t, findTitle sents entEnd = some t ∧ t ≠ [])
  ∨ (findTitle sents entEnd = none ∧ ∀ s ∈ sents, s.start ≤ entEnd) := by
  unfold findTitle
  cases hf : sents.find? (fun s => entEnd < s.start) with
  | none =>
    right
    refine ⟨rfl, ?_⟩
    intro s hs
    have := List.find?_eq_none.mp hf s hs
    simpa using Nat.le_of_not_lt (by simpa using this)
  | some s =>
    left
    exact ⟨pyStrip s.text, rfl, hS s (List.mem_of_find?_eq_some hf)⟩

theorem weLoop_good (sents : List Sentence) (allEnts : List Ent)
    (hS : ∀ s ∈ sents, pyStrip s.text ≠ []) :
    ∀ (ents : List Ent), (∀ e ∈ ents, e ∈ allEnts) → (∀ e ∈ ents, e.text ≠ []) →
    ∀ (cur : WEJob) (acc : List WEJob),
      optNE cur.company → optNE cur.dates →
      (∀ j ∈ acc, GoodWE allEnts sents j) →
      ∀ j ∈ (ents.foldl (weStep sents) (cur, acc)).2, GoodWE allEnts sents j := by
  intro ents
  induction ents with
  | nil => intro _ _ cur acc _ _ hacc j hj; exact hacc j hj
  | cons ent rest ih =>
    intro hsub htext cur acc hc hd hacc j hj
    rw [List.foldl_cons] at hj
    have hentAll : ent ∈ allEnts := hsub ent (List.mem_cons_self ent rest)
    have hentText : ent.text ≠ [] := htext ent (List.mem_cons_self ent rest)
    have hsub2 : ∀ e ∈ rest, e ∈ allEnts := fun e he => hsub e (List.mem_cons_of_mem ent he)
    have htext2 : ∀ e ∈ rest, e.text ≠ [] := fun e he => htext e (List.mem_cons_of_mem ent he)
    have hc2 : optNE (weFill cur ent).company := weFill_company cur ent hc hentText
    have hd2 : optNE (weFill cur ent).dates := weFill_dates cur ent hd hentText
    by_cases hflush : (weFill cur ent).company.isSome ∧ (weFill cur ent).dates.isSome
    · rw [show weStep sents (cur, acc) ent =
          (⟨none, none, none⟩,
            acc ++ [{ weFill cur ent with job_title := findTitle sents ent.endPos }])
          from by simp [weStep, hflush]] at hj
      refine ih hsub2 htext2 _ _ (fun t ht => by simp at ht) (fun t ht => by simp at ht)
        ?_ j hj
      intro k hk
      rcases List.mem_append.mp hk with hk1 | hk2
      · exact hacc k hk1
      · have hk0 : k = { weFill cur ent with job_title := findTitle sents ent.endPos } := by
          simpa using hk2
        subst hk0
        refine ⟨truthy_of_isSome_optNE _ hflush.1 hc2,
                truthy_of_isSome_optNE _ hflush.2 hd2, ?_⟩
        rcases findTitle_cases sents ent.endPos hS with ⟨t, hft, htne⟩ | ⟨hft, hall⟩
        · left
          simp [hft, truthy, htne]
        · right
          exact ⟨by simp [hft], ent, hentAll, hall⟩
    · rw [show weStep sents (cur, acc) ent = (weFill cur ent, acc)
          from by simp [weStep, hflush]] at hj
      exact ih hsub2 htext2 _ _ hc2 hd2 hacc j hj

/-- C4: on a document whose entity texts are non-empty and whose sentences
have non-empty trimmed text, every emitted WorkExperienceEntry has non-empty
company and dates, and its job_title is non-empty as well except in the
flagged lookahead edge case, where no sentence starts strictly after the
triggering entity's end and the entry is still appended with job_title
unset. -/
theorem extract_work_experience_complete (doc : Doc)
    (hE : ∀ e ∈ doc.ents, e.text ≠ [])
    (hS : ∀ s ∈ doc.sents, pyStrip s.text ≠ []) :
    ∀ j ∈ extract_work_experience doc,
      truthy j.company = true ∧ truthy j.dates = true ∧
        (truthy j.job_title = true ∨
          (j.job_title = none ∧ ∃ e ∈ doc.ents, ∀ s ∈ doc.sents, s.start ≤ e.endPos)) := by
  intro j hj
  exact weLoop_good doc.sents doc.ents hS doc.ents (fun e he => he) hE
    ⟨none, none, none⟩ [] (fun t ht => by simp at ht) (fun t ht => by simp at ht)
    (fun k hk => absurd hk (List.not_mem_nil k)) j hj

def c4doc : Doc :=
  { sents := [⟨pys " Senior Engineer ", 5⟩],
    ents := [⟨pys "Acme", pys "ORG", 0, 1⟩, ⟨pys "2020", pys "DATE", 2, 3⟩],
    tokens := [], noun_chunks := [] }

def c4entry : WEJob :=
  { company := some (pys "Acme"), dates := some (pys "2020"),
    job_title := some (pys "Senior Engineer") }

/-- C4 witness: a concrete document with one ORG and one DATE entity and a
later sentence produces a fully populated entry. -/
theorem extract_work_experience_complete_witness :
    truthy c4entry.company = true ∧ truthy c4entry.dates = true ∧
      (truthy c4entry.job_title = true ∨
        (c4entry.job_title = none ∧
          ∃ e ∈ c4doc.ents, ∀ s ∈ c4doc.sents, s.start ≤ e.endPos)) :=
  extract_work_experience_complete c4doc (by decide) (by decide) c4entry (by decide)

/-! ### extract_education (resume_parser.py lines 144-224) -/

def isDigit (n : Nat) : Bool := 48 ≤ n && n ≤ 57

/-- Python str.isspace: non-empty and all whitespace (spaCy token.is_space). -/
def pyIsSpace (s : PyStr) : Bool := !s.isEmpty && s.all isWsp

/-- Match exactly four digits at the head; yields the digits and the rest. -/
def take4Digits : PyStr → Option (PyStr × PyStr)
  | a :: b :: c :: d :: rest =>
    if isDigit a && isDigit b && isDigit c && isDigit d then
      some ([a, b, c, d], rest)
    else none
  | _ => none

/-- Case-insensitive literal word match at the head of a string; yields the
matched source characters. -/
def matchWord (w : PyStr) (l : PyStr) : Option PyStr :=
  if pyLower (l.take w.length) = w then some (l.take w.length) else none

/-- Attempt the date pattern at the current position: four digits, optional
whitespace, a hyphen, optional whitespace, then four digits or the word
present or current (case-insensitive); yields the matched substring. -/
def matchDateAt (l : PyStr) : Option PyStr :=
  match take4Digits l with
  | none => none
  | some (d1, r1) =>
    match r1.dropWhile isWsp with
    | 45 :: r3 =>
      let w1 := r1.takeWhile isWsp
      let w2 := r3.takeWhile isWsp
      let r4 := r3.dropWhile isWsp
      match take4Digits r4 with
      | some (d2, _) => some (d1 ++ w1 ++ 45 :: w2 ++ d2)
      | none =>
        match matchWord (pys "present") r4 with
        | some m => some (d1 ++ w1 ++ 45 :: w2 ++ m)
        | none =>
          match matchWord (pys "current") r4 with
          | some m => some (d1 ++ w1 ++ 45 :: w2 ++ m)
          | none => none
    | _ => none

/-- re.search for the year-range pattern: leftmost match wins. -/
def searchDate : PyStr → Option PyStr
  | [] => none
  | c :: rest =>
    match matchDateAt (c :: rest) with
    | some m => some m
    | none => searchDate rest

structure EduAcc where
  degree : Option PyStr := none
  institution : Option PyStr := none
  location : Option PyStr := none
  dates : Option PyStr := none
  additional_info : List PyStr := []
  deriving DecidableEq

def eduEmpty : EduAcc := {}

def degreeKw : List PyStr :=
  [pys "bachelor", pys "master", pys "phd", pys "doctorate", pys "bs", pys "ba",
   pys "ms", pys "ma", pys "mba", pys "md", pys "jd", pys "b.s.", pys "m.s."]

/-- re.match of the degree-name alternation, anchored at the start of the
already-lowercased line. -/
def degreeMatch (clean : PyStr) : Bool := degreeKw.any (fun k => pyBegins k clean)

def eduSectionKw : List PyStr :=
  [pys "education", pys "academic background", pys "academic history"]

def eduStopKw : List PyStr := [pys "experience", pys "skills", pys "projects"]

/-- One in-section line of the education loop: returns the entries flushed by
this line and the new accumulator.  la is the raw lookahead line, if any. -/
def eduStep (line : PyStr) (la : Option PyStr) (cur : EduAcc) : List EduAcc × EduAcc :=
  if degreeMatch (pyLower line) then
    ((if cur = eduEmpty then [] else [cur]),
      { eduEmpty with degree := some (match la with
          | some nxt => line ++ 32 :: nxt
          | none => line) })
  else if cur.institution = none ∧ cur.degree.isSome then
    ([], { cur with institution := some line })
  else if cur.location = none ∧ cur.institution.isSome then
    ([], { cur with location := some line })
  else
    match searchDate line with
    | some m =>
      if cur.dates = none then ([], { cur with dates := some m })
      else ([], { cur with additional_info := cur.additional_info ++ [line] })
    | none => ([], { cur with additional_info := cur.additional_info ++ [line] })

def eduLoop : List PyStr → Bool → EduAcc → List EduAcc → List EduAcc
  | [], _, cur, acc => if cur = eduEmpty then acc else acc ++ [cur]
  | line :: rest, inSec, cur, acc =>
    if eduSectionKw.any (fun k => pyContains k (pyLower line)) then
      eduLoop rest true cur acc
    else if inSec && eduStopKw.any (fun k => pyContains k (pyLower line)) then
      eduLoop rest false eduEmpty (if cur = eduEmpty then acc else acc ++ [cur])
    else if inSec then
      eduLoop rest true (eduStep line rest.head? cur).2 (acc ++ (eduStep line rest.head? cur).1)
    else eduLoop rest false cur acc

def eduFromLines (lines : List PyStr) : List EduAcc := eduLoop lines false eduEmpty []

/-- The dynamically-typed argument of extract_education: a spaCy Doc, a plain
string, or a value of any other type. -/
inductive EduInput where
  | doc (d : Doc)
  | str (s : PyStr)
  | other
  deriving DecidableEq

def extract_education : EduInput → Except PyStr (List EduAcc)
  | .doc d =>
    .ok (eduFromLines ((d.tokens.filter (fun t => !pyIsSpace t.text)).map Token.text))
  | .str s =>
    .ok (eduFromLines (((pySplitNl s).map pyStrip).filter (fun l => !l.isEmpty)))
  | .other => .error (pys "Input must be either a spaCy Doc object or a string")

def exOk {e a : Type} : Except e a → Bool
  | .ok _ => true
  | .error _ => false

/-- C8: extract_education fails exactly on an input that is neither a
document view nor a string; on every document view or string it returns
normally (possibly with an empty list), never an error. -/
theorem extract_education_error_iff (i : EduInput) :
    exOk (extract_education i) = true ↔ i ≠ EduInput.other := by
  cases i <;> simp [extract_education, exOk]

def c1input : PyStr :=
  pys "Education\nBachelor of Science\nin Computer Science\nMIT\nCambridge, MA\n2015-2019"

def c1entry : EduAcc :=
  { degree := some (pys "Bachelor of Science in Computer Science"),
    institution := some (pys "in Computer Science"),
    location := some (pys "MIT"),
    dates := some (pys "2015-2019"),
    additional_info := [pys "Cambridge, MA"] }

/-- C1 counterexample: on the scenario lines the extractor assigns the degree
lookahead line, not MIT, as the institution, so the claimed entry shape with
institution MIT is false on the code. -/
theorem edu_field_order_cex :
    extract_education (EduInput.str c1input) = Except.ok [c1entry]
      ∧ c1entry.institution ≠ some (pys "MIT") :=
  ⟨rfl, by decide⟩

/-- C1 amended: the degree lookahead does not consume the following line, so
that line is re-classified as the institution; the scenario yields degree
Bachelor of Science in Computer Science, institution in Computer Science,
location MIT, dates 2015-2019, and additional_info containing Cambridge, MA. -/
theorem edu_field_order_amended :
    extract_education (EduInput.str c1input) = Except.ok [c1entry] := rfl

def c3input : PyStr := pys "Education\n2015-2019\nBachelor of Arts"

/-- C3 counterexample: inside the section a dates-only accumulator (no degree
set) is flushed by the degree-matching line, so the output contains an entry
with no degree, contradicting the claim that only degree-bearing accumulators
are flushed by this rule. -/
theorem edu_degree_flush_cex :
    extract_education (EduInput.str c3input)
      = Except.ok [{ dates := some (pys "2015-2019") },
                   { degree := some (pys "Bachelor of Arts") }]
      ∧ ({ dates := some (pys "2015-2019") } : EduAcc).degree = none :=
  ⟨rfl, rfl⟩

/-- C3 amended: a degree-matching line flushes the current accumulator exactly
when the accumulator is non-empty (any field set, degree or not); an empty
accumulator is not flushed. -/
theorem edu_degree_flush_amended (line : PyStr) (la : Option PyStr) (cur : EduAcc)
    (h : degreeMatch (pyLower line) = true) :
    (eduStep line la cur).1 = if cur = eduEmpty then [] else [cur] := by
  simp [eduStep, h]

/-- C3 amended witness: a dates-only accumulator is flushed by a
degree-matching line. -/
theorem edu_degree_flush_amended_witness :
    (eduStep (pys "Bachelor of Arts") none { dates := some (pys "2015-2019") }).1
      = [{ dates := some (pys "2015-2019") }] :=
  (edu_degree_flush_amended (pys "Bachelor of Arts") none
    { dates := some (pys "2015-2019") } (by decide)).trans (by decide)

/-! ### extract_awards_and_certifications (resume_parser.py lines 226-258) -/

/-- re.sub of the parenthesized-group pattern with the empty string: every
opening parenthesis with a later closing parenthesis is removed together with
everything up to and including that first closing parenthesis; an opening
parenthesis never followed by a closing one is kept (the buffer is emitted
verbatim at the end). -/
def spAux : List Nat → Option (List Nat) → List Nat
  | [], none => []
  | [], some buf => buf.reverse
  | c :: rest, none => if c == 40 then spAux rest (some [c]) else c :: spAux rest none
  | c :: rest, some buf => if c == 41 then spAux rest none else spAux rest (some (c :: buf))

def stripParens (l : PyStr) : PyStr := spAux l none

def awardKw : List PyStr :=
  [pys "award", pys "certification", pys "certificate", pys "achievement"]

def isUpperC (n : Nat) : Bool := 65 ≤ n && n ≤ 90

def pyFirstUpper : PyStr → Bool
  | [] => false
  | c :: _ => isUpperC c

def pyEndsColon : PyStr → Bool
  | [] => false
  | [c] => c == 58
  | _ :: c :: rest => pyEndsColon (c :: rest)

/-- The exit test as written in the code: applied to the already lowercased
stripped line. -/
def awardExit (clean : PyStr) : Bool :=
  !clean.isEmpty && pyFirstUpper clean && pyEndsColon clean

def awardsLoop : List PyStr → Bool → List PyStr
  | [], _ => []
  | line :: rest, inSec =>
    if awardKw.any (fun k => pyContains k (pyLower (pyStrip line))) then
      awardsLoop rest true
    else
      let inSec2 := if inSec && awardExit (pyLower (pyStrip line)) then false else inSec
      if inSec2 && !(pyLower (pyStrip line)).isEmpty then
        if (pyStrip (stripParens line)).isEmpty then awardsLoop rest inSec2
        else pyStrip (stripParens line) :: awardsLoop rest inSec2
      else awardsLoop rest inSec2

def extract_awards_and_certifications (text : PyStr) : List PyStr :=
  awardsLoop (pySplitNl text) false

/-- C2: the exit condition tests the first character of the line after it has
been lowercased, so it can never hold: a lowercased character is never an
uppercase character, and the section is never exited.  On the failing input
the header-looking line Skills: and the following line are both retained,
where the claim says Skills: exits the section and neither is retained. -/
theorem awards_exit_dead :
    (∀ s : PyStr, awardExit (pyLower s) = false)
  ∧ extract_awards_and_certifications (pys "Awards\nDeans List (2020)\nSkills:\nPython")
      = [pys "Deans List", pys "Skills:", pys "Python"] := by
  constructor
  · intro s
    cases s with
    | nil => rfl
    | cons c cs =>
      simp only [awardExit, pyLower, List.map_cons, pyFirstUpper]
      have : isUpperC (pyLowerC c) = false := by
        simp only [pyLowerC, isUpperC]
        split_ifs with h
      
        · simp only [Bool.and_eq_false_iff, decide_eq_false_iff_not]
          omega
        · simp only [Bool.and_eq_false_iff, decide_eq_false_iff_not]
          omega
      simp [this]
  · rfl

/-- C7 witness: the dedup law instantiated at a concrete document and
vocabulary. -/
theorem extract_skills_ci_nodup_witness :
    (extract_skills c10doc [pys "JavaScript", pys "javaSCRIPT"]).Pairwise
      (fun a b => pyLower a ≠ pyLower b) :=
  extract_skills_ci_nodup c10doc [pys "JavaScript", pys "javaSCRIPT"]

/-- C8 witness: a string input is accepted and returns normally. -/
theorem extract_education_error_iff_witness :
    exOk (extract_education (EduInput.str [])) = true ↔ EduInput.str [] ≠ EduInput.other :=
  extract_education_error_iff (EduInput.str [])
